import Mathlib

/-!
Verification of the incremental document-indexing pipeline implemented in
`startup.py` (content hashing, change detection, conversion dispatch, token
counting, two-table index persistence with pruning).

Paths are modelled as root-relative strings.  Python dictionaries are modelled
as association lists with Python's update-in-place-or-append assignment
semantics.  File-system queries (hash results, artifact existence, external
converter success, token-count results) are inputs of the model, one function
per query, so that per-file failures are explicit `Option`/`Bool` values.
Exceptions that the code does not catch are modelled with `Except`.
-/

namespace Startup

/-! ### Path suffix machinery (pathlib semantics) -/

/-- Index of the last occurrence of a dot in a character list (pathlib's
`name.rfind` used to compute `Path.suffix`). -/
def lastDotIdx : List Char → Option Nat
  | [] => none
  | c :: rest =>
    match lastDotIdx rest with
    | some i => some (i + 1)
    | none => if c = '.' then some 0 else none

/-- Last path component of a slash-separated relative path (pathlib `Path.name`). -/
def lastComponentAux : List Char → List Char → List Char
  | [], cur => cur
  | c :: rest, cur => if c = '/' then lastComponentAux rest [] else lastComponentAux rest (cur ++ [c])

/-- pathlib `Path.name`. -/
def lastComponent (path : String) : String := String.mk (lastComponentAux path.data [])

/-- pathlib `Path.suffix`: the part of the name from its last dot, provided that
dot is neither the first nor the last character of the name. -/
def pathlibSuffix (name : String) : String :=
  match lastDotIdx name.data with
  | some i => if 0 < i ∧ i < name.data.length - 1 then String.mk (name.data.drop i) else ""
  | none => ""

/-- ASCII lower-casing of a character (`str.lower` restricted to ASCII). -/
def lowerChar (c : Char) : Char :=
  if 'A' ≤ c ∧ c ≤ 'Z' then Char.ofNat (c.toNat + 32) else c

/-- ASCII lower-casing of a string. -/
def lowerStr (s : String) : String := String.mk (s.data.map lowerChar)

/-- `source.suffix.lower()` as used throughout `startup.py`. -/
def suffixLower (path : String) : String := lowerStr (pathlibSuffix (lastComponent path))

/-! ### Constants from `startup.py` -/

def DOCX_CONVERTER_MARKITDOWN : String := "markitdown"

def DOCX_CONVERTER_SUPERDOC : String := "superdoc-redlines"

def EMAIL_SUFFIXES : List String := [".eml", ".msg", ".emlx", ".mbox", ".mbx", ".mht", ".mhtml", ".oft"]

def MARKITDOWN_MD_SUFFIXES : List String := ".pdf" :: EMAIL_SUFFIXES

def SOURCE_SUFFIXES : List String := MARKITDOWN_MD_SUFFIXES ++ [".docx"]

/-- `converted_path`: the expected converted-artifact path for a source file.
`none` models the `ValueError` raised on an unsupported source type. -/
def converted_path (source : String) (docx_converter : String) : Option String :=
  if suffixLower source ∈ MARKITDOWN_MD_SUFFIXES then some (source ++ ".md")
  else if suffixLower source = ".docx" then
    some (source ++ "." ++ (if docx_converter = DOCX_CONVERTER_MARKITDOWN then "md" else "json"))
  else none

/-! ### Python dictionaries as association lists -/

/-- `d.get(k)` / `k in d`: first binding of the key, if any. -/
def dget {α : Type} (d : List (String × α)) (k : String) : Option α :=
  match d with
  | [] => none
  | p :: rest => if p.1 = k then some p.2 else dget rest k

/-- `d[k] = v`: replace the value at the key's existing position, else append. -/
def dset {α : Type} (d : List (String × α)) (k : String) (v : α) : List (String × α) :=
  match d with
  | [] => [(k, v)]
  | p :: rest => if p.1 = k then (k, v) :: rest else p :: dset rest k v

/-! ### Change detection and conversion (`convert_files`) -/

/-- The detection loop of `convert_files` (lines 151-157): builds `to_convert`.
`Except.error` models the uncaught exceptions of that loop: the `ValueError`
from `converted_path` on an unsupported suffix, and the `KeyError` from
`hashes[rel]` when the file has an index entry but no digest this run.
Detection reads `hash_index` and never writes it. -/
def to_convert (sources : List String) (hashes hash_index : List (String × String))
    (artifact_exists : String → Bool) (dc : String) : Except String (List String) :=
  match sources with
  | [] => Except.ok []
  | src :: rest =>
    match converted_path src dc with
    | none => Except.error "ValueError"
    | some out =>
      match dget hash_index src with
      | none =>
        match to_convert rest hashes hash_index artifact_exists dc with
        | Except.error e => Except.error e
        | Except.ok tl => Except.ok (src :: tl)
      | some old_hash =>
        match dget hashes src with
        | none => Except.error "KeyError"
        | some h =>
          match to_convert rest hashes hash_index artifact_exists dc with
          | Except.error e => Except.error e
          | Except.ok tl =>
            Except.ok (if decide (old_hash ≠ h) || !artifact_exists out then src :: tl else tl)

/-- `convert_files`: detection followed by parallel conversion dispatch; a file
enters the returned converted-this-run list exactly when its external
conversion succeeds (per-file failures are caught and reported only). -/
def convert_files (sources : List String) (hashes hash_index : List (String × String))
    (artifact_exists : String → Bool) (convert_ok : String → Bool) (dc : String) :
    Except String (List String) :=
  match to_convert sources hashes hash_index artifact_exists dc with
  | Except.error e => Except.error e
  | Except.ok tc => Except.ok (tc.filter convert_ok)

/-! ### Token counting (`index_tokens`) -/

/-- The selection loop of `index_tokens` (lines 204-210): files needing a token
(re)count.  The `ValueError` from `converted_path` here is uncaught. -/
def needs_count (hashes : List (String × String)) (token_index : List (String × Nat))
    (converted_rels : List String) (artifact_exists : String → Bool) (dc : String) :
    Except String (List String) :=
  match hashes with
  | [] => Except.ok []
  | p :: rest =>
    match converted_path p.1 dc with
    | none => Except.error "ValueError"
    | some out =>
      match needs_count rest token_index converted_rels artifact_exists dc with
      | Except.error e => Except.error e
      | Except.ok tl =>
        if (decide (p.1 ∈ converted_rels) || (dget token_index out).isNone) && artifact_exists out then
          Except.ok (p.1 :: tl)
        else Except.ok tl

/-- The counting phase of `index_tokens` (lines 217-231): per-file counting with
isolated failure; on success the token index entry for the artifact is set.
A `ValueError` inside a worker is caught, hence the silent skips. -/
def count_tokens_for (nc : List String) (token_index : List (String × Nat))
    (count_result : String → Option Nat) (dc : String) : List (String × Nat) :=
  match nc with
  | [] => token_index
  | rel :: rest =>
    count_tokens_for rest
      (match converted_path rel dc with
       | none => token_index
       | some out =>
         match count_result out with
         | none => token_index
         | some n => dset token_index out n)
      count_result dc

/-- `index_tokens`: selection then counting, returning the updated token index. -/
def index_tokens (hashes : List (String × String)) (token_index : List (String × Nat))
    (converted_rels : List String) (artifact_exists : String → Bool)
    (count_result : String → Option Nat) (dc : String) :
    Except String (List (String × Nat)) :=
  match needs_count hashes token_index converted_rels artifact_exists dc with
  | Except.error e => Except.error e
  | Except.ok nc => Except.ok (count_tokens_for nc token_index count_result dc)

/-! ### The orchestrating `main` -/

/-- One run's inputs: the two loaded indices, the discovered (sorted) sources,
and the file-system/external-process oracles: per-file hash result (`none`
models a caught hashing exception), artifact existence before conversion,
external converter success, and per-artifact token-count result. -/
structure RunInput where
  hash_index0 : List (String × String)
  token_index0 : List (String × Nat)
  sources : List String
  hash_result : String → Option String
  artifact_exists0 : String → Bool
  convert_ok : String → Bool
  count_result : String → Option Nat
  docx_converter : String

/-- One run's results: the two indices as persisted, the converted-this-run
list, and the list of files whose tokens were (re)counted this run. -/
structure RunOutput where
  hash_index : List (String × String)
  token_index : List (String × Nat)
  converted : List String
  counted : List String
deriving DecidableEq

/-- The run's hash set (step 3 of `main`): per-file hashing with isolated
failure; a file with a failed hash is absent. -/
def run_hashes (i : RunInput) : List (String × String) :=
  i.sources.filterMap (fun s => (i.hash_result s).map (fun h => (s, h)))

/-- Artifact existence after the conversion stage: an artifact exists if it
existed before the run or its source was successfully converted this run
(each successful conversion writes exactly its artifact). -/
def existsAfter (ex0 : String → Bool) (converted : List String) (dc : String) :
    String → Bool :=
  fun p => ex0 p || converted.any (fun r => decide (converted_path r dc = some p))

/-- Step 5 of `main`: advance the hash index to every digest computed this run. -/
def update_hash_index (hash_index hashes : List (String × String)) :
    List (String × String) :=
  hashes.foldl (fun d p => dset d p.1 p.2) hash_index

/-- Step 7a of `main`: drop hash-index entries whose file was not hashed this run. -/
def prune_hash_index (hash_index hashes : List (String × String)) :
    List (String × String) :=
  hash_index.filter (fun p => (dget hashes p.1).isSome)

/-- Step 7b of `main`: the artifact paths derivable from this run's hash set
(`ValueError` is caught and the file skipped). -/
def valid_converted (hashes : List (String × String)) (dc : String) : List String :=
  hashes.filterMap (fun p => converted_path p.1 dc)

/-- Step 7b of `main`: drop token-index entries for underivable artifact paths. -/
def prune_token_index (token_index : List (String × Nat)) (valid : List String) :
    List (String × Nat) :=
  token_index.filter (fun p => decide (p.1 ∈ valid))

/-- The pipeline of `main` after argument parsing: load (inputs), discover
(input `sources`), hash, convert, advance the hash index, count tokens, prune
both indices, and persist.  When discovery finds nothing the run short-circuits
and persists the loaded indices unchanged.  `Except.error` models an uncaught
exception aborting the run. -/
def run (i : RunInput) : Except String RunOutput :=
  if i.sources = [] then
    Except.ok ⟨i.hash_index0, i.token_index0, [], []⟩
  else
    match convert_files i.sources (run_hashes i) i.hash_index0 i.artifact_exists0
        i.convert_ok i.docx_converter with
    | Except.error e => Except.error e
    | Except.ok converted =>
      match needs_count (run_hashes i) i.token_index0 converted
          (existsAfter i.artifact_exists0 converted i.docx_converter) i.docx_converter with
      | Except.error e => Except.error e
      | Except.ok nc =>
        Except.ok
          ⟨prune_hash_index (update_hash_index i.hash_index0 (run_hashes i)) (run_hashes i),
           prune_token_index (count_tokens_for nc i.token_index0 i.count_result i.docx_converter)
             (valid_converted (run_hashes i) i.docx_converter),
           converted, nc⟩

/-- The output of a run known to succeed. -/
def runOut (i : RunInput) : RunOutput :=
  ((run i).toOption).getD ⟨[], [], [], []⟩

/-- The second of two back-to-back runs: it loads the indices the first run
persisted, discovers the same sources with the same digests, and sees the
artifacts as the first run's conversion stage left them. -/
def second_input (i : RunInput) (o : RunOutput) : RunInput :=
  ⟨o.hash_index, o.token_index, i.sources, i.hash_result,
   existsAfter i.artifact_exists0 o.converted i.docx_converter,
   i.convert_ok, i.count_result, i.docx_converter⟩

/-! ### Index persistence (`save_*_index` / `load_*_index`)

A durable table is modelled as its list of CSV rows, each row a list of cells.
`save_*_index` writes a header row and then one row per entry in key-sorted
order (Python `sorted`); `load_*_index` is `csv.DictReader` plus the loading
loop, with `int(...)` modelled by decimal parsing. -/

/-- Lexicographic code-point comparison of character lists (Python string
ordering). -/
def charListLe : List Char → List Char → Bool
  | [], _ => true
  | _ :: _, [] => false
  | c :: cs, d :: ds =>
    if c.toNat < d.toNat then true
    else if d.toNat < c.toNat then false
    else charListLe cs ds

/-- Python string comparison as used by `sorted`. -/
def strLe (s t : String) : Bool := charListLe s.data t.data

/-- Insertion into a key-sorted association list. -/
def insertSorted {α : Type} (p : String × α) (d : List (String × α)) : List (String × α) :=
  match d with
  | [] => [p]
  | q :: rest => if strLe p.1 q.1 then p :: q :: rest else q :: insertSorted p rest

/-- `sorted(index)`: the entries in ascending key order. -/
def sort_keys {α : Type} (d : List (String × α)) : List (String × α) :=
  d.foldr insertSorted []

/-- Decimal digits with explicit recursion fuel (always ample below). -/
def natToDigitsAux : Nat → Nat → List Char
  | 0, _ => []
  | fuel + 1, n =>
    if n < 10 then [Nat.digitChar n]
    else natToDigitsAux fuel (n / 10) ++ [Nat.digitChar (n % 10)]

/-- Decimal digits of a natural number, most significant first (Python
`str` on a non-negative int, as applied by `csv.writer`). -/
def natToDigits (n : Nat) : List Char := natToDigitsAux (n + 1) n

/-- Python `str` of a non-negative int. -/
def natRepr (n : Nat) : String := String.mk (natToDigits n)

/-- The value of a decimal digit character. -/
def digitVal (c : Char) : Option Nat :=
  if c = '0' then some 0 else if c = '1' then some 1 else if c = '2' then some 2
  else if c = '3' then some 3 else if c = '4' then some 4 else if c = '5' then some 5
  else if c = '6' then some 6 else if c = '7' then some 7 else if c = '8' then some 8
  else if c = '9' then some 9 else none

/-- Decimal accumulation over a digit list. -/
def parseNatAux (cs : List Char) (acc : Nat) : Option Nat :=
  match cs with
  | [] => some acc
  | c :: rest =>
    match digitVal c with
    | none => none
    | some d => parseNatAux rest (acc * 10 + d)

/-- Python `int` restricted to plain decimal strings; `none` models the
`ValueError` on anything else. -/
def parseNat (s : String) : Option Nat :=
  if s.data = [] then none else parseNatAux s.data 0

/-- `save_hash_index`: header row, then `file,hash` rows in key order. -/
def save_hash_rows (index : List (String × String)) : List (List String) :=
  ["file", "hash"] :: (sort_keys index).map (fun p => [p.1, p.2])

/-- `save_token_index`: header row, then `file,tokens` rows in key order. -/
def save_token_rows (index : List (String × Nat)) : List (List String) :=
  ["file", "tokens"] :: (sort_keys index).map (fun p => [p.1, natRepr p.2])

/-- `row[field]` under `csv.DictReader`: the cell in the column the header
names `field`; `Except.error` models the `KeyError` on a missing column. -/
def row_field (header row : List String) (field : String) : Except String String :=
  match header.findIdx? (fun h => decide (h = field)) with
  | none => Except.error "KeyError"
  | some idx =>
    match row.get? idx with
    | none => Except.error "KeyError"
    | some v => Except.ok v

/-- The body of `load_hash_index`'s reading loop: `index[row["file"]] = row["hash"]`. -/
def hash_row_step (header : List String) (d : List (String × String)) (row : List String) :
    Except String (List (String × String)) :=
  match row_field header row "file", row_field header row "hash" with
  | Except.ok f, Except.ok h => Except.ok (dset d f h)
  | Except.error e, _ => Except.error e
  | _, Except.error e => Except.error e

/-- `load_hash_index` on an existing file's rows. -/
def load_hash_rows (rows : List (List String)) : Except String (List (String × String)) :=
  match rows with
  | [] => Except.ok []
  | header :: body => body.foldlM (hash_row_step header) []

/-- The body of `load_token_index`'s reading loop:
`index[row["file"]] = int(row["tokens"])`. -/
def token_row_step (header : List String) (d : List (String × Nat)) (row : List String) :
    Except String (List (String × Nat)) :=
  match row_field header row "file", row_field header row "tokens" with
  | Except.ok f, Except.ok t =>
    (match parseNat t with
     | none => Except.error "ValueError"
     | some n => Except.ok (dset d f n))
  | Except.error e, _ => Except.error e
  | _, Except.error e => Except.error e

/-- `load_token_index` on an existing file's rows, including the `int` parse. -/
def load_token_rows (rows : List (List String)) : Except String (List (String × Nat)) :=
  match rows with
  | [] => Except.ok []
  | header :: body => body.foldlM (token_row_step header) []

/-- The rows durably on disk when a `save_*_index` write raises after `k`
successful row writes: opening with mode `w` truncates the file, rows are
written sequentially, and the buffer is flushed when the `with` block closes
the file during unwinding — so exactly the first `k` rows remain. -/
def rows_written (rows : List (List String)) (k : Nat) : List (List String) :=
  rows.take k

/-! ### Concrete run inputs used by counterexamples and witnesses -/

/-- A previously indexed file whose content changed (D1 to D2), whose old
artifact is still on disk, and whose conversion fails this run. -/
def iC3 : RunInput :=
  ⟨[("a.pdf", "D1")], [], ["a.pdf"],
   fun s => if s = "a.pdf" then some "D2" else none,
   fun p => decide (p = "a.pdf.md"),
   fun _ => false,
   fun _ => some 7,
   "markitdown"⟩

/-- A stale index entry for a deleted file, plus a newly discovered file whose
hashing fails. -/
def iC4 : RunInput :=
  ⟨[("a.pdf", "D1")], [("a.pdf.md", 3)], ["b.pdf"],
   fun _ => none, fun _ => false, fun _ => true, fun _ => some 1, "markitdown"⟩

/-- A fully successful run over one new file, with a stale entry pair for a
deleted file to be pruned. -/
def iC4w : RunInput :=
  ⟨[("old.pdf", "Z9")], [("old.pdf.md", 2)], ["a.pdf"],
   fun _ => some "D1", fun _ => true, fun _ => true, fun _ => some 5, "markitdown"⟩

/-- A previously indexed file whose hashing fails this run. -/
def iC5 : RunInput :=
  ⟨[("a.pdf", "D1")], [], ["a.pdf"],
   fun _ => none, fun _ => false, fun _ => true, fun _ => some 1, "markitdown"⟩

/-- A first run over one new file in which every stage succeeds. -/
def iC6 : RunInput :=
  ⟨[], [], ["a.pdf"],
   fun _ => some "D1", fun _ => false, fun _ => true, fun _ => some 5, "markitdown"⟩

/-- A run discovering no source files while both loaded indices are non-empty. -/
def iC9 : RunInput :=
  ⟨[("a.pdf", "D1")], [("a.pdf.md", 3)], [],
   fun _ => none, fun _ => false, fun _ => true, fun _ => some 1, "markitdown"⟩

/-- Detection witness data: an unchanged file with its artifact present, a
changed file, and an unchanged file whose artifact is missing. -/
def w1sources : List String := ["a.pdf", "b.pdf", "c.pdf"]

def w1hashes : List (String × String) := [("a.pdf", "D1"), ("b.pdf", "X2"), ("c.pdf", "D3")]

def w1index : List (String × String) := [("a.pdf", "D1"), ("b.pdf", "D2"), ("c.pdf", "D3")]

def w1exists : String → Bool := fun p => decide (p ≠ "c.pdf.md")

/-- Token-count witness data: one file with a cached count, one just converted. -/
def w7hashes : List (String × String) := [("a.pdf", "D1"), ("b.docx", "D2")]

def w7ti : List (String × Nat) := [("a.pdf.md", 4)]

def w7conv : List String := ["b.docx"]

/-! ## Lemmas about the dictionary model -/

theorem dget_dset_self {α : Type} (d : List (String × α)) (k : String) (v : α) :
    dget (dset d k v) k = some v := by
  induction d with
  | nil => simp [dget, dset]
  | cons p rest ih =>
    by_cases h : p.1 = k
    · simp [dset, h, dget]
    · simp [dset, h, dget, ih]

theorem dget_dset_ne {α : Type} (d : List (String × α)) (k k' : String) (v : α)
    (h : k' ≠ k) : dget (dset d k v) k' = dget d k' := by
  induction d with
  | nil => simp [dget, dset, Ne.symm h]
  | cons p rest ih =>
    by_cases hp : p.1 = k
    · subst hp
      simp [dset, dget, Ne.symm h]
    · simp only [dset, if_neg hp]
      by_cases hp' : p.1 = k'
      · simp [dget, hp']
      · simp [dget, hp', ih]

theorem dset_self {α : Type} (d : List (String × α)) (k : String) (v : α)
    (h : dget d k = some v) : dset d k v = d := by
  induction d with
  | nil => simp [dget] at h
  | cons p rest ih =>
    by_cases hp : p.1 = k
    · simp only [dget, if_pos hp] at h
      simp only [dset, if_pos hp]
      have : (k, v) = p := by
        cases p
        simp only [Option.some.injEq] at h
        simp_all
      rw [this]
    · simp only [dget, if_neg hp] at h
      simp [dset, if_neg hp, ih h]

theorem dget_mem {α : Type} {d : List (String × α)} {k : String} {v : α}
    (h : dget d k = some v) : (k, v) ∈ d := by
  induction d with
  | nil => simp [dget] at h
  | cons p rest ih =>
    by_cases hp : p.1 = k
    · simp only [dget, if_pos hp] at h
      cases p
      simp_all
    · simp only [dget, if_neg hp] at h
      exact List.mem_cons_of_mem _ (ih h)

theorem dget_isSome_of_mem {α : Type} {d : List (String × α)} {k : String} {v : α}
    (h : (k, v) ∈ d) : (dget d k).isSome = true := by
  induction d with
  | nil => simp at h
  | cons p rest ih =>
    rcases List.mem_cons.mp h with h1 | h1
    · simp [dget, ← h1]
    · by_cases hp : p.1 = k
      · simp [dget, hp]
      · simp [dget, hp, ih h1]

theorem dget_none_iff {α : Type} (d : List (String × α)) (k : String) :
    dget d k = none ↔ ∀ v, (k, v) ∉ d := by
  constructor
  · intro h v hv
    have := dget_isSome_of_mem hv
    rw [h] at this
    simp at this
  · intro h
    cases hh : dget d k with
    | none => rfl
    | some v => exact absurd (dget_mem hh) (h v)

theorem dget_unique {α : Type} {d : List (String × α)} {k : String} {v w : α}
    (hnd : (d.map Prod.fst).Nodup) (h1 : (k, v) ∈ d) (h2 : (k, w) ∈ d) : v = w := by
  induction d with
  | nil => simp at h1
  | cons p rest ih =>
    simp only [List.map_cons, List.nodup_cons] at hnd
    rcases List.mem_cons.mp h1 with e1 | e1 <;> rcases List.mem_cons.mp h2 with e2 | e2
    · rw [← e1] at e2; exact (Prod.mk.injEq .. ▸ e2.symm).2
    · exact absurd (List.mem_map_of_mem Prod.fst e2) (by rw [← e1] at hnd; exact hnd.1)
    · exact absurd (List.mem_map_of_mem Prod.fst e1) (by rw [← e2] at hnd; exact hnd.1)
    · exact ih hnd.2 e1 e2

theorem dget_eq_some_iff_of_unique {α : Type} {d : List (String × α)} {k : String} {v : α}
    (hu : ∀ v1 v2, (k, v1) ∈ d → (k, v2) ∈ d → v1 = v2) :
    dget d k = some v ↔ (k, v) ∈ d := by
  constructor
  · exact dget_mem
  · intro hm
    have hs := dget_isSome_of_mem hm
    cases hh : dget d k with
    | none => rw [hh] at hs; simp at hs
    | some w => rw [hu w v (dget_mem hh) hm]

theorem dget_filter {α : Type} (P : String → Bool) (d : List (String × α)) (k : String) :
    dget (d.filter (fun p => P p.1)) k = if P k then dget d k else none := by
  induction d with
  | nil => simp [dget]
  | cons p rest ih =>
    by_cases hp : p.1 = k
    · subst hp
      by_cases hP : P p.1
      · simp [List.filter_cons, hP, dget, ih]
      · simp [List.filter_cons, hP, dget, ih]
    · by_cases hP : P p.1
      · simp [List.filter_cons, hP, dget, hp, ih]
      · simp [List.filter_cons, hP, dget, hp, ih]

theorem dget_dset_isSome_mono {α : Type} (d : List (String × α)) (k k' : String) (v : α)
    (h : (dget d k').isSome = true) : (dget (dset d k v) k').isSome = true := by
  by_cases hk : k' = k
  · subst hk; simp [dget_dset_self]
  · rw [dget_dset_ne d k k' v hk]; exact h

/-! ## Lemmas about folding dictionary assignments (step 5 of `main`) -/

theorem dget_foldl_dset_of_none {α : Type} (l : List (String × α)) (d0 : List (String × α))
    (k : String) (h : dget l k = none) :
    dget (l.foldl (fun d p => dset d p.1 p.2) d0) k = dget d0 k := by
  induction l generalizing d0 with
  | nil => simp
  | cons p rest ih =>
    have hp : ¬ p.1 = k := by
      intro he
      simp only [dget, if_pos he] at h
      exact Option.noConfusion h
    simp only [dget, if_neg hp] at h
    simp only [List.foldl_cons]
    rw [ih _ h, dget_dset_ne d0 p.1 k p.2 (fun he => hp he.symm)]

theorem dget_foldl_dset_of_some {α : Type} (l : List (String × α)) (d0 : List (String × α))
    (k : String) (v : α)
    (hfun : ∀ p ∈ l, ∀ q ∈ l, p.1 = q.1 → p.2 = q.2)
    (h : dget l k = some v) :
    dget (l.foldl (fun d p => dset d p.1 p.2) d0) k = some v := by
  induction l generalizing d0 with
  | nil => simp [dget] at h
  | cons p rest ih =>
    have hfun' : ∀ a ∈ rest, ∀ b ∈ rest, a.1 = b.1 → a.2 = b.2 :=
      fun a ha b hb => hfun a (List.mem_cons_of_mem _ ha) b (List.mem_cons_of_mem _ hb)
    simp only [List.foldl_cons]
    by_cases hp : p.1 = k
    · have hv : p.2 = v := by
        simp only [dget, if_pos hp] at h; simpa using h
      cases hrest : dget rest k with
      | none =>
        rw [dget_foldl_dset_of_none rest _ k hrest, hp, hv, dget_dset_self]
      | some w =>
        have hw : w = v := by
          have h1 : (k, w) ∈ (p :: rest) := List.mem_cons_of_mem _ (dget_mem hrest)
          have h2 : p ∈ (p :: rest) := by simp
          have := hfun (k, w) h1 p h2 (by simpa using hp.symm)
          rw [← hv]; exact this
        rw [ih _ hfun' (hw ▸ hrest)]
    · simp only [dget, if_neg hp] at h
      exact ih _ hfun' h

theorem foldl_dset_self {α : Type} (l : List (String × α)) (d : List (String × α))
    (h : ∀ p ∈ l, dget d p.1 = some p.2) :
    l.foldl (fun d p => dset d p.1 p.2) d = d := by
  induction l with
  | nil => simp
  | cons p rest ih =>
    simp only [List.foldl_cons]
    rw [dset_self d p.1 p.2 (h p (by simp))]
    exact ih (fun q hq => h q (List.mem_cons_of_mem _ hq))

/-! ## Lemmas about the run's hash set -/

theorem run_hashes_mem (i : RunInput) (p : String × String) (h : p ∈ run_hashes i) :
    p.1 ∈ i.sources ∧ i.hash_result p.1 = some p.2 := by
  unfold run_hashes at h
  obtain ⟨s, hs, hmap⟩ := List.mem_filterMap.mp h
  cases hr : i.hash_result s with
  | none => rw [hr] at hmap; simp at hmap
  | some v =>
    rw [hr] at hmap
    have hpv : (s, v) = p := Option.some.inj hmap
    rw [← hpv]
    exact ⟨hs, hr⟩

theorem run_hashes_hfun (i : RunInput) :
    ∀ p ∈ run_hashes i, ∀ q ∈ run_hashes i, p.1 = q.1 → p.2 = q.2 := by
  intro p hp q hq he
  have h1 := (run_hashes_mem i p hp).2
  have h2 := (run_hashes_mem i q hq).2
  rw [he] at h1
  rw [h1] at h2
  simpa using h2

theorem dget_run_hashes (i : RunInput) (s h : String)
    (hs : s ∈ i.sources) (hh : i.hash_result s = some h) :
    dget (run_hashes i) s = some h := by
  have hmem : (s, h) ∈ run_hashes i := by
    unfold run_hashes
    exact List.mem_filterMap.mpr ⟨s, hs, by rw [hh]; rfl⟩
  have hu : ∀ v1 v2, (s, v1) ∈ run_hashes i → (s, v2) ∈ run_hashes i → v1 = v2 :=
    fun v1 v2 m1 m2 => run_hashes_hfun i (s, v1) m1 (s, v2) m2 rfl
  exact (dget_eq_some_iff_of_unique hu).mpr hmem

theorem dget_run_hashes_val (i : RunInput) (s h : String)
    (hh : dget (run_hashes i) s = some h) : i.hash_result s = some h :=
  (run_hashes_mem i (s, h) (dget_mem hh)).2

/-! ## Characterization of the change-detection stage -/

theorem to_convert_spec (sources : List String) (hashes hash_index : List (String × String))
    (ex : String → Bool) (dc : String)
    (hsup : ∀ s ∈ sources, (converted_path s dc).isSome = true)
    (hold : ∀ s ∈ sources, (dget hash_index s).isSome = true → (dget hashes s).isSome = true) :
    ∃ tc, to_convert sources hashes hash_index ex dc = Except.ok tc ∧
      (∀ s ∈ tc, s ∈ sources) ∧
      (∀ s ∈ sources, ∀ h out, dget hashes s = some h → converted_path s dc = some out →
        (s ∈ tc ↔ (dget hash_index s = none ∨ dget hash_index s ≠ some h ∨ ex out = false))) := by
  induction sources with
  | nil => exact ⟨[], rfl, by simp, by simp⟩
  | cons src rest ih =>
    obtain ⟨tl, htl, hsub, hiff⟩ := ih (fun s hs => hsup s (List.mem_cons_of_mem _ hs))
      (fun s hs => hold s (List.mem_cons_of_mem _ hs))
    obtain ⟨out0, hout0⟩ := Option.isSome_iff_exists.mp (hsup src (by simp))
    cases holdsrc : dget hash_index src with
    | none =>
      refine ⟨src :: tl, ?_, ?_, ?_⟩
      · simp only [to_convert, hout0, holdsrc, htl]
      · intro s hs
        rcases List.mem_cons.mp hs with h1 | h1
        · simp [h1]
        · exact List.mem_cons_of_mem _ (hsub s h1)
      · intro s hs h out hh hcs
        by_cases hse : s = src
        · subst hse
          constructor
          · intro _; exact Or.inl holdsrc
          · intro _; simp
        · have hsr : s ∈ rest := by
            rcases List.mem_cons.mp hs with h1 | h1
            · exact absurd h1 hse
            · exact h1
          rw [List.mem_cons]
          simp only [hse, false_or]
          exact hiff s hsr h out hh hcs
    | some oldh =>
      have hhs : (dget hashes src).isSome = true :=
        hold src (by simp) (by rw [holdsrc]; rfl)
      obtain ⟨h0, hh0⟩ := Option.isSome_iff_exists.mp hhs
      refine ⟨if decide (oldh ≠ h0) || !ex out0 then src :: tl else tl, ?_, ?_, ?_⟩
      · simp only [to_convert, hout0, holdsrc, hh0, htl]
      · intro s hs
        by_cases hsel : (decide (oldh ≠ h0) || !ex out0) = true
        · rw [if_pos hsel] at hs
          rcases List.mem_cons.mp hs with h1 | h1
          · simp [h1]
          · exact List.mem_cons_of_mem _ (hsub s h1)
        · rw [if_neg hsel] at hs
          exact List.mem_cons_of_mem _ (hsub s hs)
      · intro s hs h out hh hcs
        by_cases hse : s = src
        · subst hse
          rw [hh0] at hh
          rw [hout0] at hcs
          have hh' : h0 = h := Option.some.inj hh
          have hcs' : out0 = out := Option.some.inj hcs
          subst hh'
          subst hcs'
          rw [holdsrc]
          by_cases hsel : (decide (oldh ≠ h0) || !ex out0) = true
          · rw [if_pos hsel]
            constructor
            · intro _
              rcases Bool.or_eq_true_iff.mp hsel with hc | hc
              · exact Or.inr (Or.inl (by simpa using of_decide_eq_true hc))
              · exact Or.inr (Or.inr (by simpa using hc))
            · intro _; simp
          · rw [if_neg hsel]
            have hsel' := Bool.or_eq_false_iff.mp (Bool.eq_false_iff.mpr hsel)
            have h1 : oldh = h0 := by
              have := hsel'.1
              simpa using of_decide_eq_false this
            have h2 : ex out0 = true := by
              have := hsel'.2
              simpa using this
            constructor
            · intro hmem
              by_cases hsr : s ∈ rest
              · have := (hiff s hsr h0 out0 hh0 hout0).mp hmem
                rw [holdsrc] at this
                exact this
              · exact absurd (hsub s hmem) hsr
            · intro hrhs
              rcases hrhs with hc | hc | hc
              · exact Option.noConfusion hc
              · exact absurd (by rw [h1]) hc
              · rw [h2] at hc; exact Bool.noConfusion hc
        · have hsr : s ∈ rest := by
            rcases List.mem_cons.mp hs with h1 | h1
            · exact absurd h1 hse
            · exact h1
          have base := hiff s hsr h out hh hcs
          by_cases hsel : (decide (oldh ≠ h0) || !ex out0) = true
          · rw [if_pos hsel, List.mem_cons]
            simp only [hse, false_or]
            exact base
          · rw [if_neg hsel]
            exact base

/-! ## The converted-artifact naming is injective -/

theorem converted_path_data (r dc a : String) (h : converted_path r dc = some a) :
    a.data = r.data ++ ['.', 'm', 'd'] ∨ a.data = r.data ++ ['.', 'j', 's', 'o', 'n'] := by
  unfold converted_path at h
  by_cases hmd : suffixLower r ∈ MARKITDOWN_MD_SUFFIXES
  · rw [if_pos hmd] at h
    left
    rw [← Option.some.inj h, String.data_append]
  · rw [if_neg hmd] at h
    by_cases hdx : suffixLower r = ".docx"
    · rw [if_pos hdx] at h
      by_cases hdc : dc = DOCX_CONVERTER_MARKITDOWN
      · rw [if_pos hdc] at h
        left
        rw [← Option.some.inj h, String.data_append, String.data_append, List.append_assoc]
        rfl
      · rw [if_neg hdc] at h
        right
        rw [← Option.some.inj h, String.data_append, String.data_append, List.append_assoc]
        rfl
    · rw [if_neg hdx] at h
      exact Option.noConfusion h

theorem converted_path_inj (r1 r2 dc a : String)
    (h1 : converted_path r1 dc = some a) (h2 : converted_path r2 dc = some a) : r1 = r2 := by
  have d1 := converted_path_data r1 dc a h1
  have d2 := converted_path_data r2 dc a h2
  apply String.ext
  rcases d1 with e1 | e1 <;> rcases d2 with e2 | e2
  · rw [e1] at e2; exact List.append_cancel_right e2
  · rw [e1] at e2
    have := congrArg List.reverse e2
    simp [List.reverse_append] at this
  · rw [e1] at e2
    have := congrArg List.reverse e2
    simp [List.reverse_append] at this
  · rw [e1] at e2; exact List.append_cancel_right e2

/-! ## Characterization of the token-count selection and counting stages -/

theorem needs_count_mem_iff (hashes : List (String × String)) (ti : List (String × Nat))
    (conv_rels : List String) (ex : String → Bool) (dc : String) (nc : List String)
    (h : needs_count hashes ti conv_rels ex dc = Except.ok nc) :
    ∀ rel, rel ∈ nc ↔ ∃ out, (dget hashes rel).isSome = true ∧ converted_path rel dc = some out ∧
      ((decide (rel ∈ conv_rels) || (dget ti out).isNone) && ex out) = true := by
  induction hashes generalizing nc with
  | nil =>
    have hnc : nc = [] := (Except.ok.inj h).symm
    subst hnc
    intro rel
    simp [dget]
  | cons p rest ih =>
    simp only [needs_count] at h
    cases hcp : converted_path p.1 dc with
    | none => rw [hcp] at h; exact Except.noConfusion h
    | some out0 =>
      simp only [hcp] at h
      cases htl : needs_count rest ti conv_rels ex dc with
      | error e => rw [htl] at h; exact Except.noConfusion h
      | ok tl =>
        simp only [htl] at h
        by_cases hcond : ((decide (p.1 ∈ conv_rels) || (dget ti out0).isNone) && ex out0) = true
        · rw [if_pos hcond] at h
          have hnc : nc = p.1 :: tl := (Except.ok.inj h).symm
          subst hnc
          intro rel
          constructor
          · intro hm
            rcases List.mem_cons.mp hm with hh1 | hh1
            · subst hh1
              exact ⟨out0, by simp [dget], hcp, hcond⟩
            · obtain ⟨out, ho1, ho2, ho3⟩ := (ih tl htl rel).mp hh1
              refine ⟨out, ?_, ho2, ho3⟩
              by_cases hpk : p.1 = rel
              · simp [dget, hpk]
              · simp [dget, hpk, ho1]
          · rintro ⟨out, ho1, ho2, ho3⟩
            by_cases hpk : rel = p.1
            · exact List.mem_cons.mpr (Or.inl hpk)
            · have ho1' : (dget rest rel).isSome = true := by
                simp only [dget, if_neg (Ne.symm hpk)] at ho1
                exact ho1
              exact List.mem_cons_of_mem _ ((ih tl htl rel).mpr ⟨out, ho1', ho2, ho3⟩)
        · rw [if_neg hcond] at h
          have hnc : nc = tl := (Except.ok.inj h).symm
          subst hnc
          intro rel
          constructor
          · intro hm
            obtain ⟨out, ho1, ho2, ho3⟩ := (ih nc htl rel).mp hm
            refine ⟨out, ?_, ho2, ho3⟩
            by_cases hpk : p.1 = rel
            · simp [dget, hpk]
            · simp [dget, hpk, ho1]
          · rintro ⟨out, ho1, ho2, ho3⟩
            apply (ih nc htl rel).mpr
            by_cases hpk : rel = p.1
            · subst hpk
              rw [hcp] at ho2
              have heq : out0 = out := Option.some.inj ho2
              subst heq
              exact absurd ho3 hcond
            · have ho1' : (dget rest rel).isSome = true := by
                simp only [dget, if_neg (Ne.symm hpk)] at ho1
                exact ho1
              exact ⟨out, ho1', ho2, ho3⟩

theorem dget_count_tokens_unchanged (nc : List String) (ti : List (String × Nat))
    (cnt : String → Option Nat) (dc : String) (out : String)
    (h : ∀ r ∈ nc, ∀ o, converted_path r dc = some o → o ≠ out) :
    dget (count_tokens_for nc ti cnt dc) out = dget ti out := by
  induction nc generalizing ti with
  | nil => rfl
  | cons r rest ih =>
    have hrest : ∀ r1 ∈ rest, ∀ o, converted_path r1 dc = some o → o ≠ out :=
      fun r1 hr1 => h r1 (List.mem_cons_of_mem _ hr1)
    cases hcp : converted_path r dc with
    | none =>
      simp only [count_tokens_for, hcp]
      exact ih ti hrest
    | some o =>
      cases hcnt : cnt o with
      | none =>
        simp only [count_tokens_for, hcp, hcnt]
        exact ih ti hrest
      | some n =>
        simp only [count_tokens_for, hcp, hcnt]
        rw [ih (dset ti o n) hrest]
        exact dget_dset_ne ti o out n (fun he => h r (by simp) o hcp he.symm)

theorem dget_count_tokens_isSome_mono (nc : List String) (ti : List (String × Nat))
    (cnt : String → Option Nat) (dc : String) (out : String)
    (h : (dget ti out).isSome = true) :
    (dget (count_tokens_for nc ti cnt dc) out).isSome = true := by
  induction nc generalizing ti with
  | nil => exact h
  | cons r rest ih =>
    cases hcp : converted_path r dc with
    | none =>
      simp only [count_tokens_for, hcp]
      exact ih ti h
    | some o =>
      cases hcnt : cnt o with
      | none =>
        simp only [count_tokens_for, hcp, hcnt]
        exact ih ti h
      | some n =>
        simp only [count_tokens_for, hcp, hcnt]
        exact ih (dset ti o n) (dget_dset_isSome_mono ti o out n h)

theorem dget_count_tokens_isSome_of_mem (nc : List String) (ti : List (String × Nat))
    (cnt : String → Option Nat) (dc : String) (r out : String)
    (hr : r ∈ nc) (hcp : converted_path r dc = some out) (hcnt : (cnt out).isSome = true) :
    (dget (count_tokens_for nc ti cnt dc) out).isSome = true := by
  induction nc generalizing ti with
  | nil => simp at hr
  | cons r0 rest ih =>
    rcases List.mem_cons.mp hr with hh | hh
    · subst hh
      obtain ⟨n, hn⟩ := Option.isSome_iff_exists.mp hcnt
      simp only [count_tokens_for, hcp, hn]
      exact dget_count_tokens_isSome_mono rest _ cnt dc out
        (by rw [dget_dset_self]; rfl)
    · cases hcp0 : converted_path r0 dc with
      | none =>
        simp only [count_tokens_for, hcp0]
        exact ih ti hh
      | some o =>
        cases hcnt0 : cnt o with
        | none =>
          simp only [count_tokens_for, hcp0, hcnt0]
          exact ih ti hh
        | some n =>
          simp only [count_tokens_for, hcp0, hcnt0]
          exact ih (dset ti o n) hh

/-! ## Inversion helpers for a successful run -/

theorem convert_files_ok_elim (sources : List String) (hashes hash_index : List (String × String))
    (ex : String → Bool) (cok : String → Bool) (dc : String) (converted : List String)
    (h : convert_files sources hashes hash_index ex cok dc = Except.ok converted) :
    ∃ tc, to_convert sources hashes hash_index ex dc = Except.ok tc ∧
      converted = tc.filter cok := by
  unfold convert_files at h
  cases htc : to_convert sources hashes hash_index ex dc with
  | error e => rw [htc] at h; exact Except.noConfusion h
  | ok tc =>
    simp only [htc] at h
    exact ⟨tc, rfl, (Except.ok.inj h).symm⟩

theorem run_ok_elim (i : RunInput) (o : RunOutput) (hrun : run i = Except.ok o)
    (hne : i.sources ≠ []) :
    ∃ converted nc,
      convert_files i.sources (run_hashes i) i.hash_index0 i.artifact_exists0
        i.convert_ok i.docx_converter = Except.ok converted ∧
      needs_count (run_hashes i) i.token_index0 converted
        (existsAfter i.artifact_exists0 converted i.docx_converter) i.docx_converter = Except.ok nc ∧
      o = ⟨prune_hash_index (update_hash_index i.hash_index0 (run_hashes i)) (run_hashes i),
           prune_token_index (count_tokens_for nc i.token_index0 i.count_result i.docx_converter)
             (valid_converted (run_hashes i) i.docx_converter),
           converted, nc⟩ := by
  unfold run at hrun
  rw [if_neg hne] at hrun
  cases hcf : convert_files i.sources (run_hashes i) i.hash_index0 i.artifact_exists0
      i.convert_ok i.docx_converter with
  | error e => rw [hcf] at hrun; exact Except.noConfusion hrun
  | ok converted =>
    simp only [hcf] at hrun
    cases hncq : needs_count (run_hashes i) i.token_index0 converted
        (existsAfter i.artifact_exists0 converted i.docx_converter) i.docx_converter with
    | error e => rw [hncq] at hrun; exact Except.noConfusion hrun
    | ok nc =>
      simp only [hncq] at hrun
      exact ⟨converted, nc, rfl, hncq, (Except.ok.inj hrun).symm⟩

/-- The persisted hash index of a successful non-empty run maps every file
hashed this run to the digest computed this run. -/
theorem dget_run_hash_index (i : RunInput) (rel dig : String)
    (hh : dget (run_hashes i) rel = some dig) :
    dget (prune_hash_index (update_hash_index i.hash_index0 (run_hashes i))
      (run_hashes i)) rel = some dig := by
  unfold prune_hash_index
  rw [dget_filter (fun k => (dget (run_hashes i) k).isSome) _ rel]
  rw [if_pos (by rw [hh]; rfl)]
  exact dget_foldl_dset_of_some (run_hashes i) i.hash_index0 rel dig (run_hashes_hfun i) hh

theorem run_hashes_nil (i : RunInput) (hne : i.sources = []) (rel dig : String)
    (hh : dget (run_hashes i) rel = some dig) : False := by
  unfold run_hashes at hh
  rw [hne] at hh
  simp [dget] at hh

/-! ## Decimal representation round-trip -/

theorem parseNatAux_append (l1 l2 : List Char) (acc : Nat) :
    parseNatAux (l1 ++ l2) acc =
      match parseNatAux l1 acc with
      | none => none
      | some m => parseNatAux l2 m := by
  induction l1 generalizing acc with
  | nil => rfl
  | cons c rest ih =>
    simp only [List.cons_append, parseNatAux]
    cases hdv : digitVal c with
    | none => rfl
    | some d => exact ih (acc * 10 + d)

theorem digitVal_digitChar (n : Nat) (h : n < 10) : digitVal (Nat.digitChar n) = some n := by
  interval_cases n <;> rfl

theorem parseNatAux_natToDigitsAux (fuel n acc : Nat) (h : n < fuel) :
    parseNatAux (natToDigitsAux fuel n) acc =
      some (acc * 10 ^ (natToDigitsAux fuel n).length + n) := by
  induction fuel generalizing n acc with
  | zero => omega
  | succ fuel ih =>
    by_cases h10 : n < 10
    · simp only [natToDigitsAux, if_pos h10, parseNatAux, digitVal_digitChar n h10,
        List.length_singleton, pow_one]
    · have hdiv : n / 10 < fuel := by
        have := Nat.div_lt_self (by omega : 0 < n) (by omega : (1:Nat) < 10)
        omega
      have hm : n % 10 < 10 := Nat.mod_lt _ (by omega)
      simp only [natToDigitsAux, if_neg h10, parseNatAux_append, ih (n / 10) acc hdiv,
        parseNatAux, digitVal_digitChar _ hm, List.length_append, List.length_singleton]
      congr 1
      set L := (natToDigitsAux fuel (n / 10)).length
      set P := (10 : Nat) ^ L with hP
      have hdm := Nat.div_add_mod n 10
      calc (acc * P + n / 10) * 10 + n % 10
          = acc * (P * 10) + (10 * (n / 10) + n % 10) := by ring
        _ = acc * (P * 10) + n := by rw [hdm]
        _ = acc * 10 ^ (L + 1) + n := by rw [pow_succ]

theorem natToDigitsAux_ne_nil (fuel n : Nat) (h : n < fuel) : natToDigitsAux fuel n ≠ [] := by
  cases fuel with
  | zero => omega
  | succ fuel =>
    by_cases h10 : n < 10
    · simp [natToDigitsAux, if_pos h10]
    · simp [natToDigitsAux, if_neg h10]

theorem parseNat_natRepr (n : Nat) : parseNat (natRepr n) = some n := by
  unfold parseNat natRepr natToDigits
  rw [if_neg (by exact natToDigitsAux_ne_nil (n + 1) n (by omega))]
  rw [parseNatAux_natToDigitsAux (n + 1) n 0 (by omega)]
  simp

/-! ## Sorting preserves the mapping -/

theorem mem_insertSorted {α : Type} (p x : String × α) (d : List (String × α)) :
    x ∈ insertSorted p d ↔ x = p ∨ x ∈ d := by
  induction d with
  | nil => simp [insertSorted]
  | cons q rest ih =>
    by_cases hle : strLe p.1 q.1
    · simp only [insertSorted, if_pos hle, List.mem_cons]
    · simp only [insertSorted, if_neg hle, List.mem_cons, ih]
      tauto

theorem mem_sort_keys {α : Type} (d : List (String × α)) (x : String × α) :
    x ∈ sort_keys d ↔ x ∈ d := by
  induction d with
  | nil => simp [sort_keys]
  | cons p rest ih =>
    show x ∈ insertSorted p (sort_keys rest) ↔ _
    rw [mem_insertSorted, ih, List.mem_cons]

theorem dget_sort_keys {α : Type} (d : List (String × α)) (hnd : (d.map Prod.fst).Nodup)
    (k : String) : dget (sort_keys d) k = dget d k := by
  cases hd : dget d k with
  | some v =>
    have hu : ∀ v1 v2, (k, v1) ∈ sort_keys d → (k, v2) ∈ sort_keys d → v1 = v2 :=
      fun v1 v2 m1 m2 =>
        dget_unique hnd ((mem_sort_keys d _).mp m1) ((mem_sort_keys d _).mp m2)
    exact (dget_eq_some_iff_of_unique hu).mpr ((mem_sort_keys d _).mpr (dget_mem hd))
  | none =>
    rw [dget_none_iff] at hd ⊢
    intro v hv
    exact hd v ((mem_sort_keys d _).mp hv)

theorem sort_keys_hfun {α : Type} (d : List (String × α)) (hnd : (d.map Prod.fst).Nodup) :
    ∀ p ∈ sort_keys d, ∀ q ∈ sort_keys d, p.1 = q.1 → p.2 = q.2 := by
  intro p hp q hq he
  have hp1 : (p.1, p.2) ∈ d := (mem_sort_keys d p).mp hp
  have hq1 : (p.1, q.2) ∈ d := by rw [he]; exact (mem_sort_keys d q).mp hq
  exact dget_unique hnd hp1 hq1

theorem dget_foldl_dset_sorted {α : Type} (d : List (String × α))
    (hnd : (d.map Prod.fst).Nodup) (k : String) :
    dget ((sort_keys d).foldl (fun d p => dset d p.1 p.2) []) k = dget d k := by
  rw [← dget_sort_keys d hnd k]
  cases hs : dget (sort_keys d) k with
  | some v => rw [dget_foldl_dset_of_some _ _ k v (sort_keys_hfun d hnd) hs]
  | none => rw [dget_foldl_dset_of_none _ _ k hs]; rfl

/-! ## Loading a saved table -/

theorem hash_row_step_saved (d : List (String × String)) (p : String × String) :
    hash_row_step ["file", "hash"] d [p.1, p.2] = Except.ok (dset d p.1 p.2) := rfl

theorem load_hash_saved_body (l : List (String × String)) (d0 : List (String × String)) :
    (l.map (fun p => [p.1, p.2])).foldlM (hash_row_step ["file", "hash"]) d0 =
      Except.ok (l.foldl (fun d p => dset d p.1 p.2) d0) := by
  induction l generalizing d0 with
  | nil => rfl
  | cons p rest ih =>
    simp only [List.map_cons, List.foldlM_cons, hash_row_step_saved]
    exact ih (dset d0 p.1 p.2)

theorem token_row_step_saved (d : List (String × Nat)) (p : String × Nat) :
    token_row_step ["file", "tokens"] d [p.1, natRepr p.2] = Except.ok (dset d p.1 p.2) := by
  show (match parseNat (natRepr p.2) with
        | none => Except.error "ValueError"
        | some n => Except.ok (dset d p.1 n)) = Except.ok (dset d p.1 p.2)
  rw [parseNat_natRepr]

theorem load_token_saved_body (l : List (String × Nat)) (d0 : List (String × Nat)) :
    (l.map (fun p => [p.1, natRepr p.2])).foldlM (token_row_step ["file", "tokens"]) d0 =
      Except.ok (l.foldl (fun d p => dset d p.1 p.2) d0) := by
  induction l generalizing d0 with
  | nil => rfl
  | cons p rest ih =>
    simp only [List.map_cons, List.foldlM_cons, token_row_step_saved]
    exact ih (dset d0 p.1 p.2)

/-! ## Helpers for the idempotence argument -/

theorem to_convert_eq_nil (sources : List String) (hashes hash_index : List (String × String))
    (ex : String → Bool) (dc : String)
    (h : ∀ s ∈ sources, ∃ dig out, dget hashes s = some dig ∧ dget hash_index s = some dig ∧
      converted_path s dc = some out ∧ ex out = true) :
    to_convert sources hashes hash_index ex dc = Except.ok [] := by
  induction sources with
  | nil => rfl
  | cons src rest ih =>
    obtain ⟨dig, out, h1, h2, h3, h4⟩ := h src (by simp)
    have hrest := ih (fun s hs => h s (List.mem_cons_of_mem _ hs))
    simp only [to_convert, h3, h2, h1, hrest]
    simp [h4]

theorem needs_count_eq_nil (hashes : List (String × String)) (ti : List (String × Nat))
    (conv_rels : List String) (ex : String → Bool) (dc : String)
    (h : ∀ p ∈ hashes, ∃ out, converted_path p.1 dc = some out ∧
      decide (p.1 ∈ conv_rels) = false ∧ (dget ti out).isSome = true) :
    needs_count hashes ti conv_rels ex dc = Except.ok [] := by
  induction hashes with
  | nil => rfl
  | cons p rest ih =>
    obtain ⟨out, h1, h2, h3⟩ := h p (by simp)
    have hrest := ih (fun q hq => h q (List.mem_cons_of_mem _ hq))
    obtain ⟨v, hv⟩ := Option.isSome_iff_exists.mp h3
    simp only [needs_count, h1, hrest]
    rw [if_neg (by rw [h2, hv]; simp)]

theorem run_eq (i : RunInput) (hne : ¬ i.sources = [])
    (converted nc : List String)
    (hcf : convert_files i.sources (run_hashes i) i.hash_index0 i.artifact_exists0
      i.convert_ok i.docx_converter = Except.ok converted)
    (hnc : needs_count (run_hashes i) i.token_index0 converted
      (existsAfter i.artifact_exists0 converted i.docx_converter) i.docx_converter =
        Except.ok nc) :
    run i = Except.ok
      ⟨prune_hash_index (update_hash_index i.hash_index0 (run_hashes i)) (run_hashes i),
       prune_token_index (count_tokens_for nc i.token_index0 i.count_result i.docx_converter)
         (valid_converted (run_hashes i) i.docx_converter),
       converted, nc⟩ := by
  unfold run
  rw [if_neg hne]
  simp only [hcf, hnc]

/-! ## Claim C1 -/

/-- C1: a discovered source file (with a digest computed this run and a
well-defined artifact path) is selected for conversion if and only if it has no
entry in the previously loaded hash index, or its digest computed this run
differs from the indexed digest, or its expected converted-artifact path does
not exist on disk.  Detection is the pure function `to_convert`: it returns the
selection and touches no index state. -/
theorem C1_selection_iff (sources : List String) (hashes hash_index : List (String × String))
    (ex : String → Bool) (dc : String)
    (hhash : ∀ s ∈ sources, (dget hashes s).isSome = true)
    (hsup : ∀ s ∈ sources, (converted_path s dc).isSome = true) :
    ∃ tc, to_convert sources hashes hash_index ex dc = Except.ok tc ∧
      ∀ s ∈ sources, ∀ h out, dget hashes s = some h → converted_path s dc = some out →
        (s ∈ tc ↔ (dget hash_index s = none ∨ dget hash_index s ≠ some h ∨ ex out = false)) := by
  obtain ⟨tc, h1, _, h3⟩ :=
    to_convert_spec sources hashes hash_index ex dc hsup (fun s hs _ => hhash s hs)
  exact ⟨tc, h1, h3⟩

/-- C1 witness: an unchanged file with its artifact present is skipped, a
changed file and a file with a missing artifact are selected. -/
theorem C1_witness :
    ∃ tc, to_convert w1sources w1hashes w1index w1exists "markitdown" = Except.ok tc ∧
      ∀ s ∈ w1sources, ∀ h out, dget w1hashes s = some h →
        converted_path s "markitdown" = some out →
        (s ∈ tc ↔ (dget w1index s = none ∨ dget w1index s ≠ some h ∨ w1exists out = false)) :=
  C1_selection_iff w1sources w1hashes w1index w1exists "markitdown" (by decide) (by decide)

/-! ## Claim C2 -/

/-- C2: after a successful run, every file hashed this run whose digest differs
from the previously indexed one is mapped by the persisted hash index to the
new digest — no hypothesis about conversion success is needed, so this holds in
particular when the file's conversion failed. -/
theorem C2_hash_advanced (i : RunInput) (o : RunOutput) (hrun : run i = Except.ok o)
    (rel dig : String) (hh : dget (run_hashes i) rel = some dig)
    (hdiff : dget i.hash_index0 rel ≠ some dig) :
    dget o.hash_index rel = some dig := by
  by_cases hne : i.sources = []
  · exact absurd hh (fun hh => run_hashes_nil i hne rel dig hh)
  · obtain ⟨converted, nc, hcf, hncq, ho⟩ := run_ok_elim i o hrun hne
    rw [ho]
    exact dget_run_hash_index i rel dig hh

/-- C2 witness: on `iC3` the digest changed from D1 to D2, conversion failed,
and the persisted index still maps the file to D2. -/
theorem C2_witness : dget (runOut iC3).hash_index "a.pdf" = some "D2" :=
  C2_hash_advanced iC3 (runOut iC3) rfl "a.pdf" "D2" (by decide) (by decide)

/-! ## Claim C3 -/

/-- C3 counterexample: on `iC3` the file's conversion fails (the converted
list is empty), yet the persisted hash index maps the file to the NEW digest
D2 — the entry is advanced, not left stale at D1 as the claim states. -/
theorem C3_counterexample :
    run iC3 = Except.ok ⟨[("a.pdf", "D2")], [("a.pdf.md", 7)], [], ["a.pdf"]⟩ ∧
    dget iC3.hash_index0 "a.pdf" = some "D1" ∧ ("D1" : String) ≠ "D2" :=
  ⟨rfl, rfl, by decide⟩

/-- C3 amended: when conversion of a file fails, the file is not added to the
converted-this-run set, but its hash-index entry is nevertheless advanced to
the digest computed this run; the next run retries it only if its artifact is
missing. -/
theorem C3_amended (i : RunInput) (o : RunOutput) (hrun : run i = Except.ok o)
    (rel dig : String) (hh : dget (run_hashes i) rel = some dig)
    (hfail : i.convert_ok rel = false) :
    rel ∉ o.converted ∧ dget o.hash_index rel = some dig := by
  by_cases hne : i.sources = []
  · exact absurd hh (fun hh => run_hashes_nil i hne rel dig hh)
  · obtain ⟨converted, nc, hcf, hncq, ho⟩ := run_ok_elim i o hrun hne
    obtain ⟨tc, htc, hflt⟩ := convert_files_ok_elim i.sources (run_hashes i) i.hash_index0
      i.artifact_exists0 i.convert_ok i.docx_converter converted hcf
    constructor
    · rw [ho]
      show rel ∉ converted
      rw [hflt]
      intro hmem
      have := List.of_mem_filter hmem
      rw [hfail] at this
      exact Bool.noConfusion this
    · rw [ho]
      exact dget_run_hash_index i rel dig hh

/-- C3 witness: the amended statement at the concrete failing-conversion run. -/
theorem C3_witness :
    "a.pdf" ∉ (runOut iC3).converted ∧ dget (runOut iC3).hash_index "a.pdf" = some "D2" :=
  C3_amended iC3 (runOut iC3) rfl "a.pdf" "D2" (by decide) rfl

/-! ## Claim C5 -/

/-- C5: the claim says a single file's hashing failure is isolated and the
run continues.  In the code, `convert_files` evaluates `hashes[rel]` for a
previously indexed file whose hashing failed, raising an uncaught `KeyError`
that aborts the whole run — evaluated here on the concrete input `iC5`. -/
theorem C5_hash_failure_aborts : run iC5 = Except.error "KeyError" := rfl

/-! ## Claim C9 -/

/-- C9 counterexample: a run that discovers no source files persists the
previously loaded indices unchanged, so with a non-empty prior index the
written tables are not header-only as the claim states. -/
theorem C9_counterexample :
    run iC9 = Except.ok ⟨[("a.pdf", "D1")], [("a.pdf.md", 3)], [], []⟩ ∧
    save_hash_rows [("a.pdf", "D1")] ≠ [["file", "hash"]] ∧
    save_token_rows [("a.pdf.md", 3)] ≠ [["file", "tokens"]] :=
  ⟨rfl, by decide, by decide⟩

/-- C9 amended: when discovery yields no supported source files, the run
short-circuits, performs no conversion or counting, and still writes both
index tables — with the loaded contents unchanged (hence header-only exactly
when the loaded indices were empty). -/
theorem C9_amended (i : RunInput) (h : i.sources = []) :
    run i = Except.ok ⟨i.hash_index0, i.token_index0, [], []⟩ := by
  unfold run
  rw [if_pos h]

/-- C9 witness: the amended statement at the concrete empty-discovery run. -/
theorem C9_witness : run iC9 = Except.ok ⟨iC9.hash_index0, iC9.token_index0, [], []⟩ :=
  C9_amended iC9 rfl

/-! ## Claim C4 -/

/-- C4 counterexample: a successful run in which a newly discovered file's
hashing fails persists a hash index without that file, so the persisted key
set does not equal the discovered set. -/
theorem C4_counterexample :
    run iC4 = Except.ok ⟨[], [], ["b.pdf"], []⟩ ∧ "b.pdf" ∈ iC4.sources ∧
    ¬ (∀ k, (dget (runOut iC4).hash_index k).isSome = true ↔ k ∈ iC4.sources) :=
  ⟨rfl, by decide, fun hcl =>
    absurd ((hcl "b.pdf").mpr (by decide)) (by decide)⟩

/-- C4 amended: after a successful run that discovered at least one source
file, the persisted hash index's key set equals exactly the set of files
successfully hashed this run (a subset of the discovered files, equal whenever
every hash succeeds), and the persisted token index's key set is a subset of
the converted-artifact paths derivable from the files in the persisted hash
index.  A run discovering no source files instead writes back both loaded
indices unchanged. -/
theorem C4_amended (i : RunInput) (o : RunOutput) (hrun : run i = Except.ok o)
    (hne : i.sources ≠ []) :
    (∀ k, (dget o.hash_index k).isSome = (dget (run_hashes i) k).isSome) ∧
    (∀ a n, dget o.token_index a = some n →
      ∃ rel, (dget o.hash_index rel).isSome = true ∧
        converted_path rel i.docx_converter = some a) := by
  obtain ⟨converted, nc, hcf, hncq, ho⟩ := run_ok_elim i o hrun hne
  subst ho
  constructor
  · intro k
    show (dget (prune_hash_index (update_hash_index i.hash_index0 (run_hashes i))
      (run_hashes i)) k).isSome = (dget (run_hashes i) k).isSome
    cases hk : dget (run_hashes i) k with
    | none =>
      unfold prune_hash_index
      rw [dget_filter (fun k => (dget (run_hashes i) k).isSome) _ k, if_neg (by rw [hk]; simp)]
    | some v =>
      rw [dget_run_hash_index i k v hk]
  · intro a n ha
    show ∃ rel, (dget (prune_hash_index (update_hash_index i.hash_index0 (run_hashes i))
      (run_hashes i)) rel).isSome = true ∧ converted_path rel i.docx_converter = some a
    unfold prune_token_index at ha
    rw [dget_filter (fun x => decide (x ∈ valid_converted (run_hashes i) i.docx_converter)) _ a] at ha
    by_cases hmem : a ∈ valid_converted (run_hashes i) i.docx_converter
    · obtain ⟨p, hp, hcp⟩ := List.mem_filterMap.mp hmem
      refine ⟨p.1, ?_, hcp⟩
      obtain ⟨dig, hdig⟩ := Option.isSome_iff_exists.mp (dget_isSome_of_mem (k := p.1) (v := p.2) (by simpa using hp))
      rw [dget_run_hash_index i p.1 dig hdig]
      rfl
    · rw [if_neg (by simpa using hmem)] at ha
      exact Option.noConfusion ha

/-- C4 witness: the amended statement at a concrete fully successful run that
also prunes a stale entry pair for a deleted file. -/
theorem C4_witness :
    (∀ k, (dget (runOut iC4w).hash_index k).isSome = (dget (run_hashes iC4w) k).isSome) ∧
    (∀ a n, dget (runOut iC4w).token_index a = some n →
      ∃ rel, (dget (runOut iC4w).hash_index rel).isSome = true ∧
        converted_path rel iC4w.docx_converter = some a) :=
  C4_amended iC4w (runOut iC4w) rfl (by decide)

/-! ## Claim C7 -/

/-- C7: a token count is (re)computed for a file exactly when its digest is in
this run's hash set, its converted artifact exists on disk, and either the
file was converted this run or its artifact has no token-index entry; entries
at artifact paths of files that are not recounted are left unchanged. -/
theorem C7_token_recount_iff (hashes : List (String × String)) (ti : List (String × Nat))
    (converted_rels : List String) (ex : String → Bool) (cnt : String → Option Nat) (dc : String)
    (nc : List String) (ti2 : List (String × Nat))
    (hnc : needs_count hashes ti converted_rels ex dc = Except.ok nc)
    (hti : index_tokens hashes ti converted_rels ex cnt dc = Except.ok ti2) :
    (∀ rel, rel ∈ nc ↔ ∃ out, (dget hashes rel).isSome = true ∧
      converted_path rel dc = some out ∧ ex out = true ∧
      (rel ∈ converted_rels ∨ dget ti out = none)) ∧
    (∀ rel out, converted_path rel dc = some out → rel ∉ nc →
      dget ti2 out = dget ti out) := by
  have hti2 : ti2 = count_tokens_for nc ti cnt dc := by
    unfold index_tokens at hti
    simp only [hnc] at hti
    exact (Except.ok.inj hti).symm
  constructor
  · intro rel
    rw [needs_count_mem_iff hashes ti converted_rels ex dc nc hnc rel]
    constructor
    · rintro ⟨out, h1, h2, h3⟩
      simp only [Bool.and_eq_true, Bool.or_eq_true, decide_eq_true_eq,
        Option.isNone_iff_eq_none] at h3
      exact ⟨out, h1, h2, h3.2, h3.1⟩
    · rintro ⟨out, h1, h2, h3, h4⟩
      refine ⟨out, h1, h2, ?_⟩
      simp only [Bool.and_eq_true, Bool.or_eq_true, decide_eq_true_eq,
        Option.isNone_iff_eq_none]
      exact ⟨h4, h3⟩
  · intro rel out hcp hnot
    rw [hti2]
    apply dget_count_tokens_unchanged
    intro r hr o ho he
    subst he
    rw [converted_path_inj r rel dc o ho hcp] at hr
    exact hnot hr

/-- C7 witness: a file with a cached count is skipped, a just-converted file
is recounted, and the skipped file's entry is unchanged. -/
theorem C7_witness :
    (∀ rel, rel ∈ ["b.docx"] ↔ ∃ out, (dget w7hashes rel).isSome = true ∧
      converted_path rel "markitdown" = some out ∧ (fun _ : String => true) out = true ∧
      (rel ∈ w7conv ∨ dget w7ti out = none)) ∧
    (∀ rel out, converted_path rel "markitdown" = some out → rel ∉ ["b.docx"] →
      dget [("a.pdf.md", 4), ("b.docx.md", 9)] out = dget w7ti out) :=
  C7_token_recount_iff w7hashes w7ti w7conv (fun _ => true) (fun _ => some 9) "markitdown"
    ["b.docx"] [("a.pdf.md", 4), ("b.docx.md", 9)] rfl rfl

/-! ## Claim C8 -/

/-- C8: the claim says a failed index write never leaves a half-written table.
`save_hash_index` truncates the file on open and writes rows sequentially with
no temporary file or atomic rename, so a write that raises after two rows
leaves a table that is neither the previous complete table (here the one for a
prior index with one other entry) nor the complete new one. -/
theorem C8_partial_table :
    rows_written (save_hash_rows [("a.pdf", "D1"), ("b.pdf", "D2")]) 2 =
      [["file", "hash"], ["a.pdf", "D1"]] ∧
    rows_written (save_hash_rows [("a.pdf", "D1"), ("b.pdf", "D2")]) 2 ≠
      save_hash_rows [("a.pdf", "D1"), ("b.pdf", "D2")] ∧
    rows_written (save_hash_rows [("a.pdf", "D1"), ("b.pdf", "D2")]) 2 ≠
      save_hash_rows [("c.pdf", "D3")] :=
  ⟨rfl, by decide, by decide⟩

/-! ## Claim C6 -/

/-- C6: running the pipeline twice in succession with no file-system changes
between the runs — same sources, same digests, artifacts as the first run's
conversion stage left them — performs zero conversions and zero token
(re)counts on the second run and persists both index tables with contents
identical to the first run's, provided the first run had no per-file failures
(every hash, conversion and count succeeded). -/
theorem C6_second_run_noop (i : RunInput) (o : RunOutput)
    (hrun : run i = Except.ok o)
    (hhash : ∀ s ∈ i.sources, (i.hash_result s).isSome = true)
    (hsup : ∀ s ∈ i.sources, (converted_path s i.docx_converter).isSome = true)
    (hconv : ∀ s, i.convert_ok s = true)
    (hcount : ∀ a, (i.count_result a).isSome = true) :
    run (second_input i o) = Except.ok ⟨o.hash_index, o.token_index, [], []⟩ := by
  by_cases hne : i.sources = []
  · have ho : o = ⟨i.hash_index0, i.token_index0, [], []⟩ := by
      unfold run at hrun
      rw [if_pos hne] at hrun
      exact (Except.ok.inj hrun).symm
    subst ho
    unfold run
    rw [if_pos (show (second_input i _).sources = [] from hne)]
    rfl
  · obtain ⟨converted, nc, hcf, hncq, ho⟩ := run_ok_elim i o hrun hne
    obtain ⟨tc, htc, hflt⟩ := convert_files_ok_elim i.sources (run_hashes i) i.hash_index0
      i.artifact_exists0 i.convert_ok i.docx_converter converted hcf
    have hconvtc : converted = tc := by
      rw [hflt]
      exact List.filter_eq_self.mpr (fun a _ => hconv a)
    -- every source file has a digest this run
    have hdig : ∀ s ∈ i.sources, ∃ dig, dget (run_hashes i) s = some dig := by
      intro s hs
      obtain ⟨dig, hd⟩ := Option.isSome_iff_exists.mp (hhash s hs)
      exact ⟨dig, dget_run_hashes i s dig hs hd⟩
    -- the detection characterization of run 1
    obtain ⟨tc2, htc2, hsub, hiff⟩ := to_convert_spec i.sources (run_hashes i) i.hash_index0
      i.artifact_exists0 i.docx_converter hsup
      (fun s hs _ => by
        obtain ⟨dig, hd⟩ := hdig s hs
        rw [hd]; rfl)
    rw [htc] at htc2
    have htc2' : tc = tc2 := Except.ok.inj htc2
    subst htc2'
    -- Fact A: after run 1 every source's artifact exists
    have hexA : ∀ s ∈ i.sources, ∀ out, converted_path s i.docx_converter = some out →
        existsAfter i.artifact_exists0 converted i.docx_converter out = true := by
      intro s hs out hout
      unfold existsAfter
      by_cases hmem : s ∈ tc
      · apply Bool.or_eq_true_iff.mpr
        right
        apply List.any_eq_true.mpr
        exact ⟨s, by rw [hconvtc]; exact hmem, decide_eq_true hout⟩
      · obtain ⟨dig, hd⟩ := hdig s hs
        have hnrhs : ¬ (dget i.hash_index0 s = none ∨ dget i.hash_index0 s ≠ some dig ∨
            i.artifact_exists0 out = false) := fun hr => hmem ((hiff s hs dig out hd hout).mpr hr)
        push_neg at hnrhs
        apply Bool.or_eq_true_iff.mpr
        left
        cases hb : i.artifact_exists0 out with
        | false => exact absurd hb hnrhs.2.2
        | true => rfl
    -- run 1's persisted indices, as terms
    subst ho
    -- Fact B: the persisted hash index agrees with this run's digests
    have hFactB : ∀ s dig, dget (run_hashes i) s = some dig →
        dget (prune_hash_index (update_hash_index i.hash_index0 (run_hashes i))
          (run_hashes i)) s = some dig :=
      fun s dig hd => dget_run_hash_index i s dig hd
    -- Fact C: the persisted token index has an entry for every source's artifact
    have hFactC : ∀ s ∈ i.sources, ∀ out, converted_path s i.docx_converter = some out →
        (dget (prune_token_index
          (count_tokens_for nc i.token_index0 i.count_result i.docx_converter)
          (valid_converted (run_hashes i) i.docx_converter)) out).isSome = true := by
      intro s hs out hout
      obtain ⟨dig, hd⟩ := hdig s hs
      have hvalid : decide (out ∈ valid_converted (run_hashes i) i.docx_converter) = true := by
        apply decide_eq_true
        exact List.mem_filterMap.mpr ⟨(s, dig), dget_mem hd, hout⟩
      have hti1 : (dget (count_tokens_for nc i.token_index0 i.count_result i.docx_converter)
          out).isSome = true := by
        by_cases hmem : s ∈ nc
        · exact dget_count_tokens_isSome_of_mem nc i.token_index0 i.count_result
            i.docx_converter s out hmem hout (hcount out)
        · have hiff2 := needs_count_mem_iff (run_hashes i) i.token_index0 converted
            (existsAfter i.artifact_exists0 converted i.docx_converter) i.docx_converter
            nc hncq s
          have hbool : ((decide (s ∈ converted) || (dget i.token_index0 out).isNone) &&
              existsAfter i.artifact_exists0 converted i.docx_converter out) = false := by
            cases hb : ((decide (s ∈ converted) || (dget i.token_index0 out).isNone) &&
                existsAfter i.artifact_exists0 converted i.docx_converter out) with
            | true => exact absurd (hiff2.mpr ⟨out, by rw [hd]; rfl, hout, hb⟩) hmem
            | false => rfl
          rw [hexA s hs out hout, Bool.and_true] at hbool
          have hisn := (Bool.or_eq_false_iff.mp hbool).2
          have hsome : (dget i.token_index0 out).isSome = true := by
            cases hdg : dget i.token_index0 out with
            | none => rw [hdg] at hisn; exact absurd hisn (by simp)
            | some v => rfl
          exact dget_count_tokens_isSome_mono nc i.token_index0 i.count_result
            i.docx_converter out hsome
      show (dget (List.filter
        (fun p => decide (p.1 ∈ valid_converted (run_hashes i) i.docx_converter))
        (count_tokens_for nc i.token_index0 i.count_result i.docx_converter)) out).isSome = true
      rw [dget_filter (fun x => decide (x ∈ valid_converted (run_hashes i) i.docx_converter))
        _ out, if_pos hvalid]
      exact hti1
    -- the second run's detection selects nothing
    have htcnil : to_convert i.sources (run_hashes i)
        (prune_hash_index (update_hash_index i.hash_index0 (run_hashes i)) (run_hashes i))
        (existsAfter i.artifact_exists0 converted i.docx_converter) i.docx_converter =
        Except.ok [] := by
      apply to_convert_eq_nil
      intro s hs
      obtain ⟨dig, hd⟩ := hdig s hs
      obtain ⟨out, hout⟩ := Option.isSome_iff_exists.mp (hsup s hs)
      exact ⟨dig, out, hd, hFactB s dig hd, hout, hexA s hs out hout⟩
    have h2cf : convert_files i.sources (run_hashes i)
        (prune_hash_index (update_hash_index i.hash_index0 (run_hashes i)) (run_hashes i))
        (existsAfter i.artifact_exists0 converted i.docx_converter) i.convert_ok
        i.docx_converter = Except.ok [] := by
      unfold convert_files
      simp only [htcnil]
      rfl
    -- the second run recounts nothing
    have h2nc : needs_count (run_hashes i)
        (prune_token_index
          (count_tokens_for nc i.token_index0 i.count_result i.docx_converter)
          (valid_converted (run_hashes i) i.docx_converter)) []
        (existsAfter (existsAfter i.artifact_exists0 converted i.docx_converter) []
          i.docx_converter) i.docx_converter = Except.ok [] := by
      apply needs_count_eq_nil
      intro p hp
      have hmm := run_hashes_mem i p hp
      obtain ⟨out, hout⟩ := Option.isSome_iff_exists.mp (hsup p.1 hmm.1)
      exact ⟨out, hout, by simp, hFactC p.1 hmm.1 out hout⟩
    -- the second run's pruned updates leave both indices unchanged
    have e1a : update_hash_index
        (prune_hash_index (update_hash_index i.hash_index0 (run_hashes i)) (run_hashes i))
        (run_hashes i) =
        prune_hash_index (update_hash_index i.hash_index0 (run_hashes i)) (run_hashes i) := by
      apply foldl_dset_self
      intro p hp
      have hmm := run_hashes_mem i p hp
      apply hFactB
      exact dget_run_hashes i p.1 p.2 hmm.1 hmm.2
    have e1 : prune_hash_index
        (update_hash_index
          (prune_hash_index (update_hash_index i.hash_index0 (run_hashes i)) (run_hashes i))
          (run_hashes i)) (run_hashes i) =
        prune_hash_index (update_hash_index i.hash_index0 (run_hashes i)) (run_hashes i) := by
      rw [e1a]
      show List.filter _ (List.filter _ (update_hash_index i.hash_index0 (run_hashes i))) = _
      exact List.filter_eq_self.mpr (fun p hp => (List.mem_filter.mp hp).2)
    have e2 : prune_token_index
        (count_tokens_for []
          (prune_token_index
            (count_tokens_for nc i.token_index0 i.count_result i.docx_converter)
            (valid_converted (run_hashes i) i.docx_converter))
          i.count_result i.docx_converter)
        (valid_converted (run_hashes i) i.docx_converter) =
        prune_token_index
          (count_tokens_for nc i.token_index0 i.count_result i.docx_converter)
          (valid_converted (run_hashes i) i.docx_converter) := by
      show List.filter _ (List.filter _
        (count_tokens_for nc i.token_index0 i.count_result i.docx_converter)) = _
      exact List.filter_eq_self.mpr (fun p hp => (List.mem_filter.mp hp).2)
    -- assemble the second run
    have hfinal : run (second_input i
        ⟨prune_hash_index (update_hash_index i.hash_index0 (run_hashes i)) (run_hashes i),
         prune_token_index
           (count_tokens_for nc i.token_index0 i.count_result i.docx_converter)
           (valid_converted (run_hashes i) i.docx_converter),
         converted, nc⟩) = Except.ok
      ⟨prune_hash_index
         (update_hash_index
           (prune_hash_index (update_hash_index i.hash_index0 (run_hashes i)) (run_hashes i))
           (run_hashes i)) (run_hashes i),
       prune_token_index
         (count_tokens_for []
           (prune_token_index
             (count_tokens_for nc i.token_index0 i.count_result i.docx_converter)
             (valid_converted (run_hashes i) i.docx_converter))
           i.count_result i.docx_converter)
         (valid_converted (run_hashes i) i.docx_converter),
       [], []⟩ := run_eq (second_input i
        ⟨prune_hash_index (update_hash_index i.hash_index0 (run_hashes i)) (run_hashes i),
         prune_token_index
           (count_tokens_for nc i.token_index0 i.count_result i.docx_converter)
           (valid_converted (run_hashes i) i.docx_converter),
         converted, nc⟩) hne [] [] h2cf h2nc
    exact hfinal.trans (by rw [e1, e2])

/-- C6 witness: a concrete fully successful first run over one file followed by
an unchanged second run that converts and counts nothing. -/
theorem C6_witness :
    run (second_input iC6 (runOut iC6)) =
      Except.ok ⟨(runOut iC6).hash_index, (runOut iC6).token_index, [], []⟩ :=
  C6_second_run_noop iC6 (runOut iC6) rfl (by decide) (by decide)
    (fun _ => rfl) (fun _ => rfl)

/-! ## Claim C10 -/

/-- C10: saving an index table and loading it back is a round-trip.  For every
hash-index mapping (path to hex-digest string) and every token-index mapping
(path to non-negative integer), both with the distinct keys a Python dict
guarantees, loading the rows written by the corresponding save function yields
a mapping that agrees with the saved one at every key. -/
theorem C10_round_trip (dh : List (String × String)) (dt : List (String × Nat))
    (h1 : (dh.map Prod.fst).Nodup) (h2 : (dt.map Prod.fst).Nodup) :
    (∃ d, load_hash_rows (save_hash_rows dh) = Except.ok d ∧ ∀ k, dget d k = dget dh k) ∧
    (∃ d, load_token_rows (save_token_rows dt) = Except.ok d ∧ ∀ k, dget d k = dget dt k) := by
  constructor
  · refine ⟨(sort_keys dh).foldl (fun d p => dset d p.1 p.2) [], ?_, ?_⟩
    · exact load_hash_saved_body (sort_keys dh) []
    · exact fun k => dget_foldl_dset_sorted dh h1 k
  · refine ⟨(sort_keys dt).foldl (fun d p => dset d p.1 p.2) [], ?_, ?_⟩
    · exact load_token_saved_body (sort_keys dt) []
    · exact fun k => dget_foldl_dset_sorted dt h2 k

/-- C10 witness: the round-trip at a concrete two-entry hash index (written
out of key order) and a concrete token index. -/
theorem C10_witness :
    (∃ d, load_hash_rows (save_hash_rows [("b.pdf", "D2"), ("a.pdf", "D1")]) = Except.ok d ∧
      ∀ k, dget d k = dget [("b.pdf", "D2"), ("a.pdf", "D1")] k) ∧
    (∃ d, load_token_rows (save_token_rows [("a.pdf.md", 12)]) = Except.ok d ∧
      ∀ k, dget d k = dget [("a.pdf.md", 12)] k) :=
  C10_round_trip [("b.pdf", "D2"), ("a.pdf", "D1")] [("a.pdf.md", 12)] (by decide) (by decide)

end Startup
